import Mathlib

/-!
Verification development for the `tower-abci` server core (`src/server.rs`).

The embedding models the per-connection session loop `Connection::run`:
a `select!` loop that races (a) the next decoded inbound request against
(b) the resolution of the oldest pending response in a `FuturesOrdered`
FIFO queue.  Handler behaviour (readiness outcome and eventual call
result) is external input, so it is attached as an oracle to each inbound
event; the nondeterministic outcome of each `select!` race is modelled as
an explicit schedule of `Choice` values, and safety properties are
quantified over all schedules.

Machine integers do not occur in the modelled code; payloads and errors
are abstracted as `Nat` tokens (the code treats both as opaque values:
payloads are only moved between typed wrappers and errors are only
propagated by the `?` operator).
-/

namespace TowerAbci

/-- Abstract stand-in for the boxed error type `BoxError`: the server only
propagates errors, never inspects them, so an opaque token suffices. -/
abbrev Err := Nat

/-- The request-method categories, from `tendermint::abci::MethodKind`
(an external dependency of `server.rs`). -/
inductive MethodKind where
  | Consensus
  | Mempool
  | Snapshot
  | Info
  | Flush
  deriving DecidableEq, Repr

/-- Modelled from the spec: the typed consensus sub-request (`ConsensusRequest`
in the crate root, not under `src/`); its category-specific payload is
abstracted as a `Nat`. -/
structure ConsensusRequest where
  payload : Nat
  deriving DecidableEq, Repr

/-- Modelled from the spec: the typed mempool sub-request. -/
structure MempoolRequest where
  payload : Nat
  deriving DecidableEq, Repr

/-- Modelled from the spec: the typed info sub-request. -/
structure InfoRequest where
  payload : Nat
  deriving DecidableEq, Repr

/-- Modelled from the spec: the typed snapshot sub-request. -/
structure SnapshotRequest where
  payload : Nat
  deriving DecidableEq, Repr

/-- Modelled from the spec: a decoded inbound request.  It carries a category
discriminant and a category-specific payload; the four dispatchable
categories plus the payload-less control category `Flush`. -/
inductive Request where
  | consensus (p : Nat)
  | mempool (p : Nat)
  | info (p : Nat)
  | snapshot (p : Nat)
  | flush
  deriving DecidableEq, Repr

/-- Modelled from the spec: `Request::kind` — the classification of a decoded
request into its `MethodKind` category (defined in the crate root / the
`tendermint` dependency, not under `src/`). -/
def Request.kind : Request → MethodKind
  | .consensus _ => .Consensus
  | .mempool _ => .Mempool
  | .info _ => .Info
  | .snapshot _ => .Snapshot
  | .flush => .Flush

/-- Modelled from the spec: the fallible conversion `Request -> ConsensusRequest`
(`TryFrom` in the crate root): succeeds exactly on the consensus variant. -/
def tryIntoConsensus : Request → Option ConsensusRequest
  | .consensus p => some ⟨p⟩
  | _ => none

/-- Modelled from the spec: the fallible conversion `Request -> MempoolRequest`. -/
def tryIntoMempool : Request → Option MempoolRequest
  | .mempool p => some ⟨p⟩
  | _ => none

/-- Modelled from the spec: the fallible conversion `Request -> InfoRequest`. -/
def tryIntoInfo : Request → Option InfoRequest
  | .info p => some ⟨p⟩
  | _ => none

/-- Modelled from the spec: the fallible conversion `Request -> SnapshotRequest`. -/
def tryIntoSnapshot : Request → Option SnapshotRequest
  | .snapshot p => some ⟨p⟩
  | _ => none

/-- Modelled from the spec: typed consensus response, payload abstracted. -/
structure ConsensusResponse where
  payload : Nat
  deriving DecidableEq, Repr

/-- Modelled from the spec: typed mempool response. -/
structure MempoolResponse where
  payload : Nat
  deriving DecidableEq, Repr

/-- Modelled from the spec: typed info response. -/
structure InfoResponse where
  payload : Nat
  deriving DecidableEq, Repr

/-- Modelled from the spec: typed snapshot response. -/
structure SnapshotResponse where
  payload : Nat
  deriving DecidableEq, Repr

/-- Modelled from the spec: an outbound message — a category-specific result
or the `Flush` acknowledgement (`Response::Flush`). -/
inductive Response where
  | consensus (p : Nat)
  | mempool (p : Nat)
  | info (p : Nat)
  | snapshot (p : Nat)
  | flush
  deriving DecidableEq, Repr

/-- Modelled from the spec: `Response::from` on a consensus handler output
(the `map_ok(Response::from)` conversion in each dispatch arm). -/
def Response.fromConsensus (r : ConsensusResponse) : Response :=
  .consensus r.payload

/-- Modelled from the spec: `Response::from` on a mempool handler output. -/
def Response.fromMempool (r : MempoolResponse) : Response :=
  .mempool r.payload

/-- Modelled from the spec: `Response::from` on an info handler output. -/
def Response.fromInfo (r : InfoResponse) : Response :=
  .info r.payload

/-- Modelled from the spec: `Response::from` on a snapshot handler output. -/
def Response.fromSnapshot (r : SnapshotResponse) : Response :=
  .snapshot r.payload

/-- `ServerBuilder` (`server.rs` lines 29–34): four optional handler slots. -/
structure ServerBuilder (C M I S : Type) where
  consensus : Option C
  mempool : Option M
  info : Option I
  snapshot : Option S
  deriving DecidableEq

/-- `Server` (`server.rs` lines 22–27): the four assembled handlers. -/
structure Server (C M I S : Type) where
  consensus : C
  mempool : M
  info : I
  snapshot : S
  deriving DecidableEq

/-- `Server::builder` together with the `Default` impl for `ServerBuilder`:
all four slots start unfilled. -/
def Server.builder {C M I S : Type} : ServerBuilder C M I S :=
  ⟨none, none, none, none⟩

/-- The `ServerBuilder::consensus` setter: overwrites the consensus slot. -/
def ServerBuilder.withConsensus {C M I S : Type}
    (b : ServerBuilder C M I S) (c : C) : ServerBuilder C M I S :=
  { b with consensus := some c }

/-- The `ServerBuilder::mempool` setter: overwrites the mempool slot. -/
def ServerBuilder.withMempool {C M I S : Type}
    (b : ServerBuilder C M I S) (m : M) : ServerBuilder C M I S :=
  { b with mempool := some m }

/-- The `ServerBuilder::info` setter: overwrites the info slot. -/
def ServerBuilder.withInfo {C M I S : Type}
    (b : ServerBuilder C M I S) (i : I) : ServerBuilder C M I S :=
  { b with info := some i }

/-- The `ServerBuilder::snapshot` setter: overwrites the snapshot slot. -/
def ServerBuilder.withSnapshot {C M I S : Type}
    (b : ServerBuilder C M I S) (s : S) : ServerBuilder C M I S :=
  { b with snapshot := some s }

/-- `ServerBuilder::finish` (`server.rs` lines 87–99): each `?` on an
`Option` field is an `Option.bind`; returns `none` if any slot is unfilled. -/
def ServerBuilder.finish {C M I S : Type}
    (b : ServerBuilder C M I S) : Option (Server C M I S) :=
  b.consensus.bind fun c =>
    b.mempool.bind fun m =>
      b.info.bind fun i =>
        b.snapshot.bind fun s =>
          some ⟨c, m, i, s⟩

instance exceptDecEq {e a : Type} [DecidableEq e] [DecidableEq a] :
    DecidableEq (Except e a) := fun x y =>
  match x, y with
  | .ok u, .ok v =>
    if h : u = v then isTrue (congrArg Except.ok h)
    else isFalse fun hc => h (Except.ok.inj hc)
  | .ok _, .error _ => isFalse fun hc => Except.noConfusion hc
  | .error _, .ok _ => isFalse fun hc => Except.noConfusion hc
  | .error u, .error v =>
    if h : u = v then isTrue (congrArg Except.error h)
    else isFalse fun hc => h (Except.error.inj hc)

/-- One item produced by the ingress side of the session loop:
either a successfully decoded request bundled with its handler oracle
(the external readiness outcome and eventual call result for this
dispatch, both irrelevant when the request is a `Flush`), or a failure of
`request_stream.next()` decoding (`req.transpose()?`), or a failure of
`Request::try_from(proto)?`. -/
inductive InEvent where
  | msg (r : Request) (rd : Except Err Unit) (res : Except Err Nat)
  | decodeFail (e : Err)
  | convFail (e : Err)
  deriving DecidableEq, Repr

/-- The per-connection session state of `Connection::run`:
the remaining ingress items, the `FuturesOrdered` pending-response queue
(each element carries the eventual value its future resolves to, after
`map_ok(Response::from)`), and the wire — the ordered list of outbound
messages sent so far through `response_sink`. -/
structure ConnState where
  input : List InEvent
  queue : List (Except Err Response)
  wire : List Response
  deriving DecidableEq, Repr

/-- The outcome of one `select!` race: either the ingress arm fires
(`recv`) or the pending-response arm fires (`resolve`). -/
inductive Choice where
  | recv
  | resolve
  deriving DecidableEq, Repr

/-- The result of one loop iteration: normal return `Ok(())`, an error
return through `?`, a `panic!` from an `expect`, continuation with a new
state, or a disabled `select!` branch (the `resolve` arm is guarded by
`!responses.is_empty()`). -/
inductive StepResult where
  | done (s : ConnState)
  | fail (e : Err) (s : ConnState)
  | panicked (s : ConnState)
  | next (s : ConnState)
  | blocked
  deriving DecidableEq, Repr

/-- The `Flush` drain loop (`server.rs` lines 226–231):
`while let Some(response) = responses.next().await` pops pending
operations head to tail; each resolved `Ok` response is sent at once,
and the first `Err` propagates through `response?`.  Returns the wire
after the drain, the queue left unpopped, and the propagated error if
any. -/
def drainFlush : List (Except Err Response) → List Response →
    List Response × List (Except Err Response) × Option Err
  | [], w => (w, [], none)
  | .ok v :: rest, w => drainFlush rest (w ++ [v])
  | .error e :: rest, w => (w, rest, some e)

/-- One iteration of the `loop { select! { ... } }` body of
`Connection::run` (`server.rs` lines 191–245), for a given race outcome.

`recv` arm: stream end returns `Ok(())`; a decode or conversion failure
propagates through `?`; a dispatchable request is converted with
`try_into().expect("checked kind")`, its handler readiness is awaited
(`ready().await?`), and the call's pending response is pushed at the tail
of the queue; a `Flush` drains the whole queue and then sends the
`Response::Flush` acknowledgement.

`resolve` arm: only enabled when the queue is non-empty; pops the head,
propagates its error through `response?`, or sends its response. -/
def step (s : ConnState) (c : Choice) : StepResult :=
  match c with
  | .recv =>
    match s.input with
    | [] => .done s
    | .decodeFail e :: rest => .fail e ⟨rest, s.queue, s.wire⟩
    | .convFail e :: rest => .fail e ⟨rest, s.queue, s.wire⟩
    | .msg r rd res :: rest =>
      match r.kind with
      | .Consensus =>
        match tryIntoConsensus r with
        | none => .panicked ⟨rest, s.queue, s.wire⟩
        | some _ =>
          match rd with
          | .error e => .fail e ⟨rest, s.queue, s.wire⟩
          | .ok _ =>
            .next ⟨rest, s.queue ++ [res.map (fun v => Response.fromConsensus ⟨v⟩)], s.wire⟩
      | .Mempool =>
        match tryIntoMempool r with
        | none => .panicked ⟨rest, s.queue, s.wire⟩
        | some _ =>
          match rd with
          | .error e => .fail e ⟨rest, s.queue, s.wire⟩
          | .ok _ =>
            .next ⟨rest, s.queue ++ [res.map (fun v => Response.fromMempool ⟨v⟩)], s.wire⟩
      | .Snapshot =>
        match tryIntoSnapshot r with
        | none => .panicked ⟨rest, s.queue, s.wire⟩
        | some _ =>
          match rd with
          | .error e => .fail e ⟨rest, s.queue, s.wire⟩
          | .ok _ =>
            .next ⟨rest, s.queue ++ [res.map (fun v => Response.fromSnapshot ⟨v⟩)], s.wire⟩
      | .Info =>
        match tryIntoInfo r with
        | none => .panicked ⟨rest, s.queue, s.wire⟩
        | some _ =>
          match rd with
          | .error e => .fail e ⟨rest, s.queue, s.wire⟩
          | .ok _ =>
            .next ⟨rest, s.queue ++ [res.map (fun v => Response.fromInfo ⟨v⟩)], s.wire⟩
      | .Flush =>
        match drainFlush s.queue s.wire with
        | (w, rem, some e) => .fail e ⟨rest, rem, w⟩
        | (w, rem, none) => .next ⟨rest, rem, w ++ [Response.flush]⟩
  | .resolve =>
    match s.queue with
    | [] => .blocked
    | .error e :: rest => .fail e ⟨s.input, rest, s.wire⟩
    | .ok v :: rest => .next ⟨s.input, rest, s.wire ++ [v]⟩

/-- The observable outcome of running the session loop under a finite
schedule: clean return with the final wire, error return with the wire at
failure, a panic, or schedule exhausted with the loop still running. -/
inductive RunResult where
  | ok (w : List Response)
  | err (e : Err) (w : List Response)
  | crashed (w : List Response)
  | more (s : ConnState)
  deriving DecidableEq, Repr

/-- Run the session loop under a schedule of race outcomes.  A disabled
branch (`blocked`) consumes no work: the race is simply decided again. -/
def run (s : ConnState) : List Choice → RunResult
  | [] => .more s
  | c :: cs =>
    match step s c with
    | .done t => .ok t.wire
    | .fail e t => .err e t.wire
    | .panicked t => .crashed t.wire
    | .blocked => run s cs
    | .next t => run t cs

/-- The wire (list of emitted outbound messages, in order) of a run's
outcome. -/
def RunResult.wireOf : RunResult → List Response
  | .ok w => w
  | .err _ w => w
  | .crashed w => w
  | .more s => s.wire

/-- The responses of the resolved-`Ok` pending operations of a queue, in
queue order. -/
def oks : List (Except Err Response) → List Response
  | [] => []
  | .ok v :: t => v :: oks t
  | .error _ :: t => oks t

/-- A pending operation that resolves successfully. -/
def exOk : Except Err Response → Bool
  | .ok _ => true
  | .error _ => false

/-- A queue whose every pending operation resolves successfully. -/
def okQueue (q : List (Except Err Response)) : Prop :=
  ∀ x ∈ q, exOk x = true

instance (q : List (Except Err Response)) : Decidable (okQueue q) :=
  inferInstanceAs (Decidable (∀ x ∈ q, exOk x = true))

/-- An ingress item that decodes successfully and whose handler oracle
reports a ready handler and a successful call. -/
def InEvent.good : InEvent → Bool
  | .msg _ (.ok _) (.ok _) => true
  | _ => false

/-- All ingress items are good. -/
def goodInput (l : List InEvent) : Prop :=
  ∀ ev ∈ l, ev.good = true

instance (l : List InEvent) : Decidable (goodInput l) :=
  inferInstanceAs (Decidable (∀ ev ∈ l, ev.good = true))

/-- An ingress item carrying a request of one of the four dispatchable
categories (not a `Flush`, not a failure). -/
def InEvent.dispatchableEv : InEvent → Bool
  | .msg r _ _ =>
    match r.kind with
    | .Flush => false
    | _ => true
  | _ => false

/-- The response the dispatch arm for a category produces from a handler
payload (the composite of the handler call and `Response::from`). -/
def respOf : MethodKind → Nat → Response
  | .Consensus, v => Response.fromConsensus ⟨v⟩
  | .Mempool, v => Response.fromMempool ⟨v⟩
  | .Snapshot, v => Response.fromSnapshot ⟨v⟩
  | .Info, v => Response.fromInfo ⟨v⟩
  | .Flush, _ => Response.flush

/-- The outbound messages a single good ingress item contributes to a
complete run, in order: one category response for a dispatchable request,
one acknowledgement for a `Flush`. -/
def eventExpected : InEvent → List Response
  | .msg r _ res =>
    match r.kind with
    | .Flush => [Response.flush]
    | k =>
      match res with
      | .ok v => [respOf k v]
      | .error _ => []
  | _ => []

/-- The arrival-order outbound trace of an ingress sequence: responses in
request arrival order, each `Flush` acknowledgement placed after every
response to an earlier request. -/
def expectedTrace : List InEvent → List Response
  | [] => []
  | ev :: rest => eventExpected ev ++ expectedTrace rest

/-- Number of `Flush` acknowledgements in a wire trace. -/
def countAck : List Response → Nat
  | [] => 0
  | .flush :: t => countAck t + 1
  | _ :: t => countAck t

/-- Number of `Flush` requests in an ingress sequence. -/
def countFlushEv : List InEvent → Nat
  | [] => 0
  | .msg .flush _ _ :: t => countFlushEv t + 1
  | _ :: t => countFlushEv t

/-- A schedule that completes all work for a good ingress sequence:
each dispatchable request is received and its response resolved at once,
each `Flush` is received (draining in place), and a final `recv` observes
the end of the stream. -/
def lockstepSched : List InEvent → List Choice
  | [] => [Choice.recv]
  | .msg r _ _ :: rest =>
    match r.kind with
    | .Flush => Choice.recv :: lockstepSched rest
    | _ => Choice.recv :: Choice.resolve :: lockstepSched rest
  | _ :: rest => Choice.recv :: lockstepSched rest

theorem okQueue_cons {x : Except Err Response} {q : List (Except Err Response)}
    (h : okQueue (x :: q)) : exOk x = true ∧ okQueue q := by
  refine ⟨h x (List.mem_cons_self x q), ?_⟩
  intro y hy
  exact h y (List.mem_cons_of_mem x hy)

theorem okQueue_nil : okQueue [] := by
  intro y hy
  cases hy

theorem okQueue_append_one {q : List (Except Err Response)} {x : Except Err Response}
    (h : okQueue q) (hx : exOk x = true) : okQueue (q ++ [x]) := by
  intro y hy
  rcases List.mem_append.mp hy with h1 | h2
  · exact h y h1
  · rw [List.mem_singleton] at h2
    subst h2
    exact hx

theorem goodInput_cons {ev : InEvent} {l : List InEvent} (h : goodInput (ev :: l)) :
    ev.good = true ∧ goodInput l := by
  refine ⟨h ev (List.mem_cons_self ev l), ?_⟩
  intro x hx
  exact h x (List.mem_cons_of_mem ev hx)

theorem oks_append : ∀ (a b : List (Except Err Response)), oks (a ++ b) = oks a ++ oks b
  | [], _ => rfl
  | .ok v :: t, b => by simp [oks, oks_append t b]
  | .error _ :: t, b => by simp [oks, oks_append t b]

theorem drainFlush_ok : ∀ (q : List (Except Err Response)), okQueue q →
    ∀ w, drainFlush q w = (w ++ oks q, [], none)
  | [], _, w => by simp [drainFlush, oks]
  | .ok v :: t, h, w => by
    have ht := (okQueue_cons h).2
    simp [drainFlush, oks, drainFlush_ok t ht (w ++ [v])]
  | .error _ :: _, h, _ => by
    have := (okQueue_cons h).1
    simp [exOk] at this

theorem drainFlush_err : ∀ (a : List (Except Err Response)), okQueue a →
    ∀ (e : Err) (b : List (Except Err Response)) (w : List Response),
    drainFlush (a ++ Except.error e :: b) w = (w ++ oks a, b, some e)
  | [], _, e, b, w => by simp [drainFlush, oks]
  | .ok v :: t, h, e, b, w => by
    simp [drainFlush, oks, drainFlush_err t (okQueue_cons h).2 e b (w ++ [v])]
  | .error _ :: _, h, _, _, _ => by
    have := (okQueue_cons h).1
    simp [exOk] at this

theorem kindFlush : ∀ r : Request, r.kind = MethodKind.Flush → r = Request.flush := by
  intro r h
  cases r <;> simp [Request.kind] at h ⊢

theorem step_dispatch_good (r : Request) (hk : r.kind ≠ MethodKind.Flush)
    (u : Unit) (res : Except Err Nat) (rest : List InEvent)
    (q : List (Except Err Response)) (w : List Response) :
    step ⟨InEvent.msg r (Except.ok u) res :: rest, q, w⟩ Choice.recv =
      StepResult.next ⟨rest, q ++ [res.map (fun v => respOf r.kind v)], w⟩ := by
  cases r with
  | flush => exact absurd rfl hk
  | consensus p => rfl
  | mempool p => rfl
  | info p => rfl
  | snapshot p => rfl

theorem step_dispatch_rdfail (r : Request) (hk : r.kind ≠ MethodKind.Flush)
    (e : Err) (res : Except Err Nat) (rest : List InEvent)
    (q : List (Except Err Response)) (w : List Response) :
    step ⟨InEvent.msg r (Except.error e) res :: rest, q, w⟩ Choice.recv =
      StepResult.fail e ⟨rest, q, w⟩ := by
  cases r with
  | flush => exact absurd rfl hk
  | consensus p => rfl
  | mempool p => rfl
  | info p => rfl
  | snapshot p => rfl

theorem eventExpected_disp (r : Request) (hk : r.kind ≠ MethodKind.Flush)
    (rd : Except Err Unit) (v : Nat) :
    eventExpected (InEvent.msg r rd (Except.ok v)) = [respOf r.kind v] := by
  cases r with
  | flush => exact absurd rfl hk
  | consensus p => rfl
  | mempool p => rfl
  | info p => rfl
  | snapshot p => rfl

/-- Main safety invariant of the session loop: from any state whose queue
and remaining input are failure-free, under every schedule the wire only
grows, and the grown part is an initial segment of the resolved queue
responses followed by the arrival-order trace of the remaining input. -/
theorem run_good_prefix : ∀ (sched : List Choice) (s : ConnState),
    okQueue s.queue → goodInput s.input →
    ∃ t u, (run s sched).wireOf = s.wire ++ t ∧
      t ++ u = oks s.queue ++ expectedTrace s.input := by
  intro sched
  induction sched with
  | nil =>
    intro s _ _
    exact ⟨[], oks s.queue ++ expectedTrace s.input,
      by simp [run, RunResult.wireOf], by simp⟩
  | cons c cs ih =>
    rintro ⟨input, queue, wire⟩ hq hi
    cases c with
    | resolve =>
      cases queue with
      | nil =>
        obtain ⟨t, u, h1, h2⟩ := ih ⟨input, [], wire⟩ okQueue_nil hi
        exact ⟨t, u, by simpa [run, step] using h1, by simpa using h2⟩
      | cons x rest =>
        obtain ⟨hx, hrest⟩ := okQueue_cons hq
        cases x with
        | error e => simp [exOk] at hx
        | ok v =>
          obtain ⟨t, u, h1, h2⟩ := ih ⟨input, rest, wire ++ [v]⟩ hrest hi
          refine ⟨v :: t, u, ?_, ?_⟩
          · have hrun : run (⟨input, Except.ok v :: rest, wire⟩ : ConnState)
                (Choice.resolve :: cs) = run ⟨input, rest, wire ++ [v]⟩ cs := rfl
            rw [hrun, h1, List.append_assoc]
            rfl
          · show (v :: t) ++ u = oks (Except.ok v :: rest) ++ expectedTrace input
            rw [List.cons_append, h2]
            rfl
    | recv =>
      cases input with
      | nil =>
        refine ⟨[], oks queue, ?_, ?_⟩
        · simp [run, step, RunResult.wireOf]
        · simp [expectedTrace]
      | cons ev rest =>
        obtain ⟨hg, hrest⟩ := goodInput_cons hi
        cases ev with
        | decodeFail e => simp [InEvent.good] at hg
        | convFail e => simp [InEvent.good] at hg
        | msg r rd res =>
          cases rd with
          | error e => simp [InEvent.good] at hg
          | ok u0 =>
            cases res with
            | error e => simp [InEvent.good] at hg
            | ok v =>
              by_cases hrf : r = Request.flush
              · subst hrf
                have hdrain := drainFlush_ok queue hq wire
                have hstep : step ⟨InEvent.msg Request.flush (Except.ok u0)
                      (Except.ok v) :: rest, queue, wire⟩ Choice.recv
                    = StepResult.next ⟨rest, [],
                        (wire ++ oks queue) ++ [Response.flush]⟩ := by
                  simp [step, hdrain, Request.kind]
                have hrun : run (⟨InEvent.msg Request.flush (Except.ok u0)
                      (Except.ok v) :: rest, queue, wire⟩ : ConnState)
                      (Choice.recv :: cs)
                    = run ⟨rest, [], (wire ++ oks queue) ++ [Response.flush]⟩ cs := by
                  simp [run, hstep]
                obtain ⟨t, u, h1, h2⟩ :=
                  ih ⟨rest, [], (wire ++ oks queue) ++ [Response.flush]⟩ okQueue_nil hrest
                refine ⟨oks queue ++ Response.flush :: t, u, ?_, ?_⟩
                · rw [hrun, h1]
                  simp
                · simp only [oks, List.nil_append] at h2
                  simp [expectedTrace, eventExpected, Request.kind, List.append_assoc, h2]
              · have hkr : r.kind ≠ MethodKind.Flush := fun hk => hrf (kindFlush r hk)
                have hstep := step_dispatch_good r hkr u0 (Except.ok v) rest queue wire
                have hrun : run (⟨InEvent.msg r (Except.ok u0)
                      (Except.ok v) :: rest, queue, wire⟩ : ConnState)
                      (Choice.recv :: cs)
                    = run ⟨rest, queue ++ [Except.ok (respOf r.kind v)], wire⟩ cs := by
                  simp [run, hstep, Except.map]
                obtain ⟨t, u, h1, h2⟩ :=
                  ih ⟨rest, queue ++ [Except.ok (respOf r.kind v)], wire⟩
                    (okQueue_append_one hq rfl) hrest
                refine ⟨t, u, ?_, ?_⟩
                · rw [hrun]
                  exact h1
                · rw [h2, oks_append]
                  simp [oks, expectedTrace, eventExpected_disp r hkr, List.append_assoc]

/-- Failure-containment invariant of the session loop: from any state whose
queue holds a failure-free segment `a` followed by a failed pending
operation, under every schedule and every continuation of the input the
wire only ever grows by an initial segment of the responses of `a` — in
particular no response queued behind the failed operation is ever sent. -/
theorem run_error_blocks : ∀ (sched : List Choice) (s : ConnState)
    (a b : List (Except Err Response)) (e : Err),
    okQueue a → s.queue = a ++ Except.error e :: b →
    ∃ t u, (run s sched).wireOf = s.wire ++ t ∧ t ++ u = oks a := by
  intro sched
  induction sched with
  | nil =>
    intro s a b e _ _
    exact ⟨[], oks a, by simp [run, RunResult.wireOf], by simp⟩
  | cons c cs ih =>
    rintro ⟨input, queue, wire⟩ a b e ha hs
    simp only at hs
    subst hs
    cases c with
    | resolve =>
      cases a with
      | nil =>
        exact ⟨[], oks [], by simp [run, step, RunResult.wireOf], by simp⟩
      | cons x a' =>
        obtain ⟨hx, ha'⟩ := okQueue_cons ha
        cases x with
        | error e0 => simp [exOk] at hx
        | ok v =>
          obtain ⟨t, u, h1, h2⟩ :=
            ih ⟨input, a' ++ Except.error e :: b, wire ++ [v]⟩ a' b e ha' rfl
          refine ⟨v :: t, u, ?_, ?_⟩
          · have hrun : run (⟨input, (Except.ok v :: a') ++ Except.error e :: b, wire⟩ :
                ConnState) (Choice.resolve :: cs)
                = run ⟨input, a' ++ Except.error e :: b, wire ++ [v]⟩ cs := rfl
            rw [hrun, h1, List.append_assoc]
            rfl
          · show (v :: t) ++ u = oks (Except.ok v :: a')
            rw [List.cons_append, h2]
            rfl
    | recv =>
      cases input with
      | nil =>
        exact ⟨[], oks a, by simp [run, step, RunResult.wireOf], by simp⟩
      | cons ev rest =>
        cases ev with
        | decodeFail e0 =>
          exact ⟨[], oks a, by simp [run, step, RunResult.wireOf], by simp⟩
        | convFail e0 =>
          exact ⟨[], oks a, by simp [run, step, RunResult.wireOf], by simp⟩
        | msg r rd res =>
          by_cases hrf : r = Request.flush
          · subst hrf
            have hd := drainFlush_err a ha e b wire
            have hstep : step ⟨InEvent.msg Request.flush rd res :: rest,
                  a ++ Except.error e :: b, wire⟩ Choice.recv
                = StepResult.fail e ⟨rest, b, wire ++ oks a⟩ := by
              simp [step, hd, Request.kind]
            exact ⟨oks a, [], by simp [run, hstep, RunResult.wireOf], by simp⟩
          · have hkr : r.kind ≠ MethodKind.Flush := fun hk => hrf (kindFlush r hk)
            cases rd with
            | error e0 =>
              have hstep := step_dispatch_rdfail r hkr e0 res rest
                (a ++ Except.error e :: b) wire
              exact ⟨[], oks a, by simp [run, hstep, RunResult.wireOf], by simp⟩
            | ok u0 =>
              have hstep := step_dispatch_good r hkr u0 res rest
                (a ++ Except.error e :: b) wire
              have hrun : run (⟨InEvent.msg r (Except.ok u0) res :: rest,
                    a ++ Except.error e :: b, wire⟩ : ConnState) (Choice.recv :: cs)
                  = run ⟨rest, (a ++ Except.error e :: b) ++
                      [res.map (fun x => respOf r.kind x)], wire⟩ cs := by
                simp [run, hstep]
              have hassoc : (a ++ Except.error e :: b) ++
                    [res.map (fun x => respOf r.kind x)]
                  = a ++ Except.error e :: (b ++ [res.map (fun x => respOf r.kind x)]) := by
                simp
              obtain ⟨t, u, h1, h2⟩ := ih ⟨rest, a ++ Except.error e ::
                  (b ++ [res.map (fun x => respOf r.kind x)]), wire⟩
                a (b ++ [res.map (fun x => respOf r.kind x)]) e ha rfl
              refine ⟨t, u, ?_, h2⟩
              rw [hrun, hassoc]
              exact h1

/-- Completeness: the lock-step schedule drives a failure-free ingress
sequence to a clean end of the loop with the full arrival-order trace,
acknowledgements included, on the wire. -/
theorem lockstep_run (input : List InEvent) :
    goodInput input → ∀ w,
    run ⟨input, [], w⟩ (lockstepSched input) = RunResult.ok (w ++ expectedTrace input) := by
  induction input with
  | nil =>
    intro _ w
    simp [lockstepSched, run, step, expectedTrace]
  | cons ev rest ih =>
    intro hi w
    obtain ⟨hg, hrest⟩ := goodInput_cons hi
    cases ev with
    | decodeFail e => simp [InEvent.good] at hg
    | convFail e => simp [InEvent.good] at hg
    | msg r rd res =>
      cases rd with
      | error e => simp [InEvent.good] at hg
      | ok u0 =>
        cases res with
        | error e => simp [InEvent.good] at hg
        | ok v =>
          cases r with
          | flush =>
            have hred : run (⟨InEvent.msg Request.flush (Except.ok u0)
                  (Except.ok v) :: rest, [], w⟩ : ConnState)
                  (lockstepSched (InEvent.msg Request.flush (Except.ok u0)
                    (Except.ok v) :: rest))
                = run ⟨rest, [], w ++ [Response.flush]⟩ (lockstepSched rest) := rfl
            rw [hred, ih hrest (w ++ [Response.flush])]
            simp [expectedTrace, eventExpected, Request.kind, List.append_assoc]
          | consensus p =>
            have hred : run (⟨InEvent.msg (Request.consensus p) (Except.ok u0)
                  (Except.ok v) :: rest, [], w⟩ : ConnState)
                  (lockstepSched (InEvent.msg (Request.consensus p) (Except.ok u0)
                    (Except.ok v) :: rest))
                = run ⟨rest, [], w ++ [Response.consensus v]⟩ (lockstepSched rest) := rfl
            rw [hred, ih hrest (w ++ [Response.consensus v])]
            simp [expectedTrace, eventExpected, Request.kind, respOf,
              Response.fromConsensus, List.append_assoc]
          | mempool p =>
            have hred : run (⟨InEvent.msg (Request.mempool p) (Except.ok u0)
                  (Except.ok v) :: rest, [], w⟩ : ConnState)
                  (lockstepSched (InEvent.msg (Request.mempool p) (Except.ok u0)
                    (Except.ok v) :: rest))
                = run ⟨rest, [], w ++ [Response.mempool v]⟩ (lockstepSched rest) := rfl
            rw [hred, ih hrest (w ++ [Response.mempool v])]
            simp [expectedTrace, eventExpected, Request.kind, respOf,
              Response.fromMempool, List.append_assoc]
          | info p =>
            have hred : run (⟨InEvent.msg (Request.info p) (Except.ok u0)
                  (Except.ok v) :: rest, [], w⟩ : ConnState)
                  (lockstepSched (InEvent.msg (Request.info p) (Except.ok u0)
                    (Except.ok v) :: rest))
                = run ⟨rest, [], w ++ [Response.info v]⟩ (lockstepSched rest) := rfl
            rw [hred, ih hrest (w ++ [Response.info v])]
            simp [expectedTrace, eventExpected, Request.kind, respOf,
              Response.fromInfo, List.append_assoc]
          | snapshot p =>
            have hred : run (⟨InEvent.msg (Request.snapshot p) (Except.ok u0)
                  (Except.ok v) :: rest, [], w⟩ : ConnState)
                  (lockstepSched (InEvent.msg (Request.snapshot p) (Except.ok u0)
                    (Except.ok v) :: rest))
                = run ⟨rest, [], w ++ [Response.snapshot v]⟩ (lockstepSched rest) := rfl
            rw [hred, ih hrest (w ++ [Response.snapshot v])]
            simp [expectedTrace, eventExpected, Request.kind, respOf,
              Response.fromSnapshot, List.append_assoc]

/-- In the arrival-order trace of a failure-free ingress sequence there is
exactly one `Flush` acknowledgement per `Flush` request. -/
theorem countAck_expectedTrace (input : List InEvent) :
    goodInput input → countAck (expectedTrace input) = countFlushEv input := by
  induction input with
  | nil => intro _; rfl
  | cons ev rest ih =>
    intro hi
    obtain ⟨hg, hrest⟩ := goodInput_cons hi
    cases ev with
    | decodeFail e => simp [InEvent.good] at hg
    | convFail e => simp [InEvent.good] at hg
    | msg r rd res =>
      cases rd with
      | error e => simp [InEvent.good] at hg
      | ok u0 =>
        cases res with
        | error e => simp [InEvent.good] at hg
        | ok v =>
          cases r with
          | flush =>
            simp [expectedTrace, eventExpected, Request.kind, countAck,
              countFlushEv, ih hrest]
          | consensus p =>
            simp [expectedTrace, eventExpected, Request.kind, respOf,
              Response.fromConsensus, countAck, countFlushEv, ih hrest]
          | mempool p =>
            simp [expectedTrace, eventExpected, Request.kind, respOf,
              Response.fromMempool, countAck, countFlushEv, ih hrest]
          | info p =>
            simp [expectedTrace, eventExpected, Request.kind, respOf,
              Response.fromInfo, countAck, countFlushEv, ih hrest]
          | snapshot p =>
            simp [expectedTrace, eventExpected, Request.kind, respOf,
              Response.fromSnapshot, countAck, countFlushEv, ih hrest]

/-- Claim C1 — Order preservation: for a sequence of dispatched requests of
the four dispatchable categories received without an interleaved `Flush`
(all good, i.e. handlers ready and calls succeeding), under every schedule
of the race between ingress and completion — hence for every completion
order of the handler calls — the wire is an initial segment of the
responses in request arrival order; and the lock-step schedule emits all
of them, in exactly arrival order. -/
theorem order_preservation :
    (∀ (input : List InEvent) (sched : List Choice),
      goodInput input → (∀ ev ∈ input, ev.dispatchableEv = true) →
      ∃ u, (run ⟨input, [], []⟩ sched).wireOf ++ u = expectedTrace input)
    ∧
    (∀ input : List InEvent,
      goodInput input → (∀ ev ∈ input, ev.dispatchableEv = true) →
      run ⟨input, [], []⟩ (lockstepSched input) = RunResult.ok (expectedTrace input)) := by
  constructor
  · intro input sched hi _
    obtain ⟨t, u, h1, h2⟩ := run_good_prefix sched ⟨input, [], []⟩ okQueue_nil hi
    simp only [oks, List.nil_append] at h1 h2
    exact ⟨u, by rw [h1, h2]⟩
  · intro input hi _
    simpa using lockstep_run input hi []

theorem order_preservation_witness :
    ∃ u, (run ⟨[InEvent.msg (Request.info 1) (Except.ok ()) (Except.ok 7),
        InEvent.msg (Request.consensus 2) (Except.ok ()) (Except.ok 8)], [], []⟩
      [Choice.recv, Choice.recv, Choice.resolve, Choice.resolve]).wireOf ++ u =
      expectedTrace [InEvent.msg (Request.info 1) (Except.ok ()) (Except.ok 7),
        InEvent.msg (Request.consensus 2) (Except.ok ()) (Except.ok 8)] :=
  order_preservation.1
    [InEvent.msg (Request.info 1) (Except.ok ()) (Except.ok 7),
      InEvent.msg (Request.consensus 2) (Except.ok ()) (Except.ok 8)]
    [Choice.recv, Choice.recv, Choice.resolve, Choice.resolve]
    (by decide) (by decide)

/-- Claim C2 — Flush barrier completeness: processing a `Flush` drains the
whole pending queue head to tail onto the wire, in order, and only then
appends the acknowledgement, consuming no further ingress item; and
globally, under every schedule the wire is an initial segment of the
arrival-order trace, in which each `Flush` acknowledgement sits after
every response to a request received before that `Flush`. -/
theorem flush_barrier_completeness :
    (∀ (rd : Except Err Unit) (res : Except Err Nat) (rest : List InEvent)
      (q : List (Except Err Response)) (w : List Response), okQueue q →
      step ⟨InEvent.msg Request.flush rd res :: rest, q, w⟩ Choice.recv =
        StepResult.next ⟨rest, [], (w ++ oks q) ++ [Response.flush]⟩)
    ∧
    (∀ (input : List InEvent) (sched : List Choice), goodInput input →
      ∃ u, (run ⟨input, [], []⟩ sched).wireOf ++ u = expectedTrace input) := by
  constructor
  · intro rd res rest q w hq
    simp [step, drainFlush_ok q hq w, Request.kind]
  · intro input sched hi
    obtain ⟨t, u, h1, h2⟩ := run_good_prefix sched ⟨input, [], []⟩ okQueue_nil hi
    simp only [oks, List.nil_append] at h1 h2
    exact ⟨u, by rw [h1, h2]⟩

theorem flush_barrier_completeness_witness :
    step ⟨[InEvent.msg Request.flush (Except.ok ()) (Except.ok 0)],
        [Except.ok (Response.consensus 3), Except.ok (Response.mempool 4)],
        []⟩ Choice.recv =
      StepResult.next ⟨[], [],
        (([] : List Response) ++
          oks [Except.ok (Response.consensus 3), Except.ok (Response.mempool 4)]) ++
        [Response.flush]⟩ :=
  flush_barrier_completeness.1 (Except.ok ()) (Except.ok 0) []
    [Except.ok (Response.consensus 3), Except.ok (Response.mempool 4)] []
    (by decide)

/-- Claim C3 — Flush transparency: a `Flush` arriving on an empty queue is
acknowledged immediately with no preceding response; processing a `Flush`
is independent of every handler oracle (it is never forwarded to any
handler, and nothing is queued for it); and a complete run emits exactly
one acknowledgement per `Flush` request. -/
theorem flush_transparency :
    (∀ (rd : Except Err Unit) (res : Except Err Nat) (rest : List InEvent)
      (w : List Response),
      step ⟨InEvent.msg Request.flush rd res :: rest, [], w⟩ Choice.recv =
        StepResult.next ⟨rest, [], w ++ [Response.flush]⟩)
    ∧
    (∀ (rd rd' : Except Err Unit) (res res' : Except Err Nat) (rest : List InEvent)
      (q : List (Except Err Response)) (w : List Response),
      step ⟨InEvent.msg Request.flush rd res :: rest, q, w⟩ Choice.recv =
        step ⟨InEvent.msg Request.flush rd' res' :: rest, q, w⟩ Choice.recv)
    ∧
    (∀ input : List InEvent, goodInput input →
      countAck ((run ⟨input, [], []⟩ (lockstepSched input)).wireOf) = countFlushEv input) := by
  refine ⟨?_, ?_, ?_⟩
  · intro rd res rest w
    rfl
  · intro rd rd' res res' rest q w
    rfl
  · intro input hi
    rw [lockstep_run input hi []]
    simpa [RunResult.wireOf] using countAck_expectedTrace input hi

theorem flush_transparency_witness :
    countAck ((run ⟨[InEvent.msg Request.flush (Except.ok ()) (Except.ok 0),
        InEvent.msg (Request.mempool 1) (Except.ok ()) (Except.ok 2),
        InEvent.msg Request.flush (Except.ok ()) (Except.ok 0)], [], []⟩
      (lockstepSched [InEvent.msg Request.flush (Except.ok ()) (Except.ok 0),
        InEvent.msg (Request.mempool 1) (Except.ok ()) (Except.ok 2),
        InEvent.msg Request.flush (Except.ok ()) (Except.ok 0)])).wireOf) =
    countFlushEv [InEvent.msg Request.flush (Except.ok ()) (Except.ok 0),
        InEvent.msg (Request.mempool 1) (Except.ok ()) (Except.ok 2),
        InEvent.msg Request.flush (Except.ok ()) (Except.ok 0)] :=
  flush_transparency.2.2
    [InEvent.msg Request.flush (Except.ok ()) (Except.ok 0),
      InEvent.msg (Request.mempool 1) (Except.ok ()) (Except.ok 2),
      InEvent.msg Request.flush (Except.ok ()) (Except.ok 0)]
    (by decide)

/-- Claim C4 — Handler / readiness failure is fatal: a readiness failure
makes the loop return that error with the wire unchanged; a failed
pending operation at the head makes the loop return that error with the
wire unchanged; and from a state whose queue holds a failed operation,
under every schedule and every further input the wire only ever grows by
responses from before the failure — never by a response queued behind it
— and no protocol-level error value exists on the wire (the wire holds
only `Response` values by construction). -/
theorem handler_failure_fatal :
    (∀ (r : Request), r.kind ≠ MethodKind.Flush →
      ∀ (e : Err) (res : Except Err Nat) (rest : List InEvent)
        (q : List (Except Err Response)) (w : List Response) (sched : List Choice),
      run ⟨InEvent.msg r (Except.error e) res :: rest, q, w⟩ (Choice.recv :: sched) =
        RunResult.err e w)
    ∧
    (∀ (e : Err) (input : List InEvent) (q : List (Except Err Response))
      (w : List Response) (sched : List Choice),
      run ⟨input, Except.error e :: q, w⟩ (Choice.resolve :: sched) =
        RunResult.err e w)
    ∧
    (∀ (sched : List Choice) (input : List InEvent)
      (a b : List (Except Err Response)) (e : Err) (w : List Response),
      okQueue a →
      ∃ t u, (run ⟨input, a ++ Except.error e :: b, w⟩ sched).wireOf = w ++ t ∧
        t ++ u = oks a) := by
  refine ⟨?_, ?_, ?_⟩
  · intro r hk e res rest q w sched
    simp [run, step_dispatch_rdfail r hk e res rest q w, RunResult.wireOf]
  · intro e input q w sched
    rfl
  · intro sched input a b e w ha
    exact run_error_blocks sched ⟨input, a ++ Except.error e :: b, w⟩ a b e ha rfl

theorem handler_failure_fatal_witness :
    run ⟨[InEvent.msg (Request.mempool 2) (Except.error 9) (Except.ok 0)], [], []⟩
      [Choice.recv] = RunResult.err 9 []
    ∧ ∃ t u, (run ⟨[], [Except.ok (Response.info 4)] ++ Except.error 9 ::
        [Except.ok (Response.info 5)], []⟩
        [Choice.resolve, Choice.resolve]).wireOf = [] ++ t ∧
        t ++ u = oks [Except.ok (Response.info 4)] :=
  ⟨handler_failure_fatal.1 (Request.mempool 2) (by decide) 9 (Except.ok 0) [] [] [] [],
   handler_failure_fatal.2.2 [Choice.resolve, Choice.resolve] []
     [Except.ok (Response.info 4)] [Except.ok (Response.info 5)] 9 [] (by decide)⟩

/-- Claim C5 — Inline, uninterruptible dispatch: a dispatch of a newly
classified dispatchable request is a single uninterrupted step of the
loop: it emits nothing on the wire, removes nothing from the queue, and
only appends the new pending operation at the tail — no already-resolved
pending operation can be sent during it. -/
theorem inline_dispatch :
    ∀ (r : Request), r.kind ≠ MethodKind.Flush →
    ∀ (u : Unit) (res : Except Err Nat) (rest : List InEvent)
      (q : List (Except Err Response)) (w : List Response),
    step ⟨InEvent.msg r (Except.ok u) res :: rest, q, w⟩ Choice.recv =
      StepResult.next ⟨rest, q ++ [res.map (fun v => respOf r.kind v)], w⟩ :=
  step_dispatch_good

theorem inline_dispatch_witness :
    step ⟨[InEvent.msg (Request.snapshot 3) (Except.ok ()) (Except.ok 8)],
        [Except.ok (Response.consensus 1)], [Response.info 2]⟩ Choice.recv =
      StepResult.next ⟨[], [Except.ok (Response.consensus 1)] ++
        [(Except.ok 8).map (fun v => respOf (Request.snapshot 3).kind v)],
        [Response.info 2]⟩ :=
  inline_dispatch (Request.snapshot 3) (by decide) () (Except.ok 8) []
    [Except.ok (Response.consensus 1)] [Response.info 2]

/-- Claim C6 — Decode failure is fatal and silent: a decode failure or a
protobuf-to-`Request` conversion failure makes the loop return that error
immediately, with the wire unchanged — no response is emitted for the
malformed input and no recovery is attempted. -/
theorem decode_failure_fatal :
    (∀ (e : Err) (rest : List InEvent) (q : List (Except Err Response))
      (w : List Response),
      step ⟨InEvent.decodeFail e :: rest, q, w⟩ Choice.recv =
        StepResult.fail e ⟨rest, q, w⟩)
    ∧ (∀ (e : Err) (rest : List InEvent) (q : List (Except Err Response))
      (w : List Response),
      step ⟨InEvent.convFail e :: rest, q, w⟩ Choice.recv =
        StepResult.fail e ⟨rest, q, w⟩)
    ∧ (∀ (e : Err) (rest : List InEvent) (q : List (Except Err Response))
      (w : List Response) (sched : List Choice),
      run ⟨InEvent.decodeFail e :: rest, q, w⟩ (Choice.recv :: sched) =
        RunResult.err e w)
    ∧ (∀ (e : Err) (rest : List InEvent) (q : List (Except Err Response))
      (w : List Response) (sched : List Choice),
      run ⟨InEvent.convFail e :: rest, q, w⟩ (Choice.recv :: sched) =
        RunResult.err e w) := by
  refine ⟨?_, ?_, ?_, ?_⟩ <;> intros <;> rfl

/-- Claim C7 — Builder completeness: `finish` yields a server exactly when
all four handler slots are set (and `none`, a non-value, otherwise);
setting a slot again overwrites it; after setting all four slots the
assembled server holds the last value set for each; and the fresh builder
finishes to `none`. -/
theorem builder_completeness :
    ∀ (C M I S : Type) (b : ServerBuilder C M I S) (c c' : C) (m m' : M)
      (i i' : I) (s s' : S),
    ((b.finish).isSome ↔
      b.consensus.isSome ∧ b.mempool.isSome ∧ b.info.isSome ∧ b.snapshot.isSome)
    ∧ ((b.withConsensus c).withConsensus c' = b.withConsensus c')
    ∧ ((b.withMempool m).withMempool m' = b.withMempool m')
    ∧ ((b.withInfo i).withInfo i' = b.withInfo i')
    ∧ ((b.withSnapshot s).withSnapshot s' = b.withSnapshot s')
    ∧ ((((b.withConsensus c).withMempool m).withInfo i).withSnapshot s).finish
        = some ⟨c, m, i, s⟩
    ∧ (Server.builder : ServerBuilder C M I S).finish = none := by
  intro C M I S b c c' m m' i i' s s'
  obtain ⟨oc, om, oi, os⟩ := b
  refine ⟨?_, rfl, rfl, rfl, rfl, rfl, rfl⟩
  cases oc <;> cases om <;> cases oi <;> cases os <;>
    simp [ServerBuilder.finish]

/-- Claim C8 — Classification-conversion safety: converting a decoded
request whose kind is one of the four dispatchable categories into that
category's typed sub-request always succeeds, and consequently the
`expect("checked kind")` panic branch of every dispatch arm is
unreachable: no step of the loop ever panics. -/
theorem classification_safety :
    (∀ r : Request, r.kind = MethodKind.Consensus → (tryIntoConsensus r).isSome = true)
    ∧ (∀ r : Request, r.kind = MethodKind.Mempool → (tryIntoMempool r).isSome = true)
    ∧ (∀ r : Request, r.kind = MethodKind.Snapshot → (tryIntoSnapshot r).isSome = true)
    ∧ (∀ r : Request, r.kind = MethodKind.Info → (tryIntoInfo r).isSome = true)
    ∧ (∀ (s : ConnState) (c : Choice) (t : ConnState),
        step s c ≠ StepResult.panicked t) := by
  refine ⟨?_, ?_, ?_, ?_, ?_⟩
  · intro r h
    cases r <;> first | rfl | simp [Request.kind] at h
  · intro r h
    cases r <;> first | rfl | simp [Request.kind] at h
  · intro r h
    cases r <;> first | rfl | simp [Request.kind] at h
  · intro r h
    cases r <;> first | rfl | simp [Request.kind] at h
  · intro s c t
    obtain ⟨input, queue, wire⟩ := s
    cases c with
    | resolve =>
      cases queue with
      | nil => simp [step]
      | cons x rest => cases x <;> simp [step]
    | recv =>
      cases input with
      | nil => simp [step]
      | cons ev rest =>
        cases ev with
        | decodeFail e => simp [step]
        | convFail e => simp [step]
        | msg r rd res =>
          cases r with
          | flush =>
            rcases hdf : drainFlush queue wire with ⟨w, rem, oe⟩
            cases oe <;> simp [step, Request.kind, hdf]
          | consensus p => cases rd <;> simp [step, Request.kind, tryIntoConsensus]
          | mempool p => cases rd <;> simp [step, Request.kind, tryIntoMempool]
          | info p => cases rd <;> simp [step, Request.kind, tryIntoInfo]
          | snapshot p => cases rd <;> simp [step, Request.kind, tryIntoSnapshot]

theorem classification_safety_witness :
    (tryIntoConsensus (Request.consensus 11)).isSome = true
    ∧ (tryIntoMempool (Request.mempool 12)).isSome = true
    ∧ (tryIntoSnapshot (Request.snapshot 13)).isSome = true
    ∧ (tryIntoInfo (Request.info 14)).isSome = true :=
  ⟨classification_safety.1 (Request.consensus 11) rfl,
   classification_safety.2.1 (Request.mempool 12) rfl,
   classification_safety.2.2.1 (Request.snapshot 13) rfl,
   classification_safety.2.2.2.1 (Request.info 14) rfl⟩

/-- Claim C9 — Clean termination: when the ingress stream has ended
without error, the next receive step returns from the loop successfully
(`Ok(())`), ending the run with the wire as it stands. -/
theorem clean_termination :
    (∀ (q : List (Except Err Response)) (w : List Response),
      step ⟨[], q, w⟩ Choice.recv = StepResult.done ⟨[], q, w⟩)
    ∧ (∀ (q : List (Except Err Response)) (w : List Response) (sched : List Choice),
      run ⟨[], q, w⟩ (Choice.recv :: sched) = RunResult.ok w) :=
  ⟨fun _ _ => rfl, fun _ _ _ => rfl⟩

/-- Claim C10 — A clean end of the ingress stream with a non-empty pending
queue returns successfully at once with the wire unchanged: the queued,
not-yet-sent responses are discarded and never emitted. -/
theorem clean_end_discards_queue :
    ∀ (q : List (Except Err Response)) (w : List Response) (sched : List Choice),
    q ≠ [] →
    run ⟨[], q, w⟩ (Choice.recv :: sched) = RunResult.ok w := by
  intro q w sched _
  rfl

theorem clean_end_discards_queue_witness :
    run ⟨[], [Except.ok (Response.mempool 6)], [Response.consensus 1]⟩ [Choice.recv]
      = RunResult.ok [Response.consensus 1] :=
  clean_end_discards_queue [Except.ok (Response.mempool 6)] [Response.consensus 1] []
    (by decide)

end TowerAbci
